import Mathlib

/-!
Shallow embedding of the `scooper` TCP log-sink server
(`src/main.rs`, `src/lib.rs`) and proofs about the claims of its
specification.

Modelling conventions:
* Machine integers (`usize`) become `Nat`; every value the program
  handles fits in 64 bits, and no arithmetic in the modelled paths
  overflows, so no explicit `% 2^64` is needed: the byte counter is
  only ever incremented by read sizes and the program exits long
  before `2^64` bytes, and `human_readable_size` computes
  `1024 ^ 6 = 2^60 < 2^64`.
* Raw bytes become `Nat` (one per byte); the stamp line is ASCII, so
  its UTF-8 encoding is the list of its characters' code points.
* The `f64` arithmetic inside `human_readable_size` is modelled
  exactly: `size as f64` rounds to 53 significant bits with
  round-half-to-even (`rnd53`); every later step — the comparisons
  with `1024.0` and the divisions by `1024.0 = 2^10` — is exact on
  such values (division by a power of two only shifts the exponent
  and the values stay in the normal range), and Rust's `{:.N}`
  formatting rounds the exact binary value half-to-even (`fmt0`,
  `fmt2`).
* The tokio tasks are serialized by the two mutexes; an execution is
  modelled as the list of completed handler events in the order their
  critical sections acquire the locks.  `exit` is modelled by an
  `exited : Option Nat` field (the exit code); once set, no further
  step has any effect.
-/

/-! ## Model of `src/lib.rs` -/

/-- `SCALE_BYTES` from `lib.rs`: the seven unit suffixes. -/
def SCALE_BYTES : List String := ["B", "KB", "MB", "GB", "TB", "PB", "EB"]

/-- Round `a / b` (for `b > 0`) to the nearest integer, ties to even:
the rounding mode of both `usize as f64` and Rust's float formatting. -/
def rndHalfEven (a b : Nat) : Nat :=
  let q := a / b
  let r := a % b
  if b < 2 * r then q + 1
  else if 2 * r < b then q
  else if q % 2 = 0 then q else q + 1

/-- `size as f64`: exact for `size < 2^53`; otherwise rounds to the
nearest multiple of `2^e` (ties to even) where `e` is the number of
bits beyond the 53-bit mantissa. -/
def rnd53 (n : Nat) : Nat :=
  if n < 2 ^ 53 then n
  else
    let e := (Nat.log2 n + 1) - 53
    rndHalfEven n (2 ^ e) * 2 ^ e

/-- The `while size >= base { size /= base; unit += 1 }` loop of
`human_readable_size`.  The running `f64` value after `i` exact
divisions of the integer `m` by `1024.0` is `m / 2^(10*i)`, so the
loop condition `size >= 1024.0` reads `2^(10*(i+1)) ≤ m`; the loop
returns the final `unit` index. -/
def hrs_unit (m i : Nat) : Nat :=
  if 2 ^ (10 * (i + 1)) ≤ m then hrs_unit m (i + 1) else i
  termination_by m - i
  decreasing_by
    have hi : i < 2 ^ (10 * (i + 1)) :=
      lt_of_lt_of_le (Nat.lt_two_pow i)
        (Nat.pow_le_pow_right (by norm_num) (by omega))
    omega

/-- Rust `format!("{:.0}", v)` for the exact value `m / 2^(10*u)`. -/
def fmt0 (m u : Nat) : String :=
  toString (rndHalfEven m (2 ^ (10 * u)))

/-- Rust `format!("{:.2}", v)` for the exact value `m / 2^(10*u)`:
round `v * 100` half-to-even, then print with two digits after the
point. -/
def fmt2 (m u : Nat) : String :=
  let c := rndHalfEven (100 * m) (2 ^ (10 * u))
  toString (c / 100) ++ "." ++ (if c % 100 < 10 then "0" else "") ++ toString (c % 100)

/-- `human_readable_size` from `lib.rs`.  The indexing
`SCALE_BYTES[unit]` would panic out of bounds, so the model returns
`Option String`, `none` standing for that panic. -/
def human_readable_size (size : Nat) : Option String :=
  let base : Nat := 1024
  let max_size : Nat := base ^ (SCALE_BYTES.length - 1)
  if size > max_size then some (toString size ++ " B")
  else
    let m := rnd53 size
    let unit := hrs_unit m 0
    (SCALE_BYTES.get? unit).map (fun u =>
      let size_fmt := if u == "B" then fmt0 m unit else fmt2 m unit
      size_fmt ++ " " ++ u)

/-! ## Model of `src/main.rs` -/

/-- One logged unit (§3 of the spec): stamp metadata plus payload. -/
structure LogRecord where
  receivedAtMillis : Nat
  clientAddress : String
  payload : List Nat
  deriving Repr, DecidableEq

/-- The stamp line built in `log_message`:
`format!("\n$$${}$$${}$$${n}$$$\n", now(), client)` with `n` the
number of bytes read. -/
def stampString (ts : Nat) (client : String) (n : Nat) : String :=
  "\n$$$" ++ toString ts ++ "$$$" ++ client ++ "$$$" ++ toString n ++ "$$$\n"

/-- The stamp line as bytes; it is pure ASCII, so UTF-8 encoding is
the characters' code points. -/
def stampBytes (ts : Nat) (client : String) (n : Nat) : List Nat :=
  (stampString ts client n).data.map Char.toNat

/-- On-disk serialization of one record: stamp line, then the raw
payload bytes. -/
def encodeRecord (r : LogRecord) : List Nat :=
  stampBytes r.receivedAtMillis r.clientAddress r.payload.length ++ r.payload

/-- Process state.  `original` is `previous_bytes_written` (the file
size at startup), `counter` the `bytes_counter` mutex content
(ByteBudget), `file` the bytes appended to the log file by this run,
`flushes` the number of completed `flush` calls, `exited` the exit
code once `exit` has run. -/
structure ServerState where
  original : Nat
  counter : Nat
  file : List Nat
  flushes : Nat
  exited : Option Nat
  deriving Repr, DecidableEq

/-- Events a run can contain: a connection whose single read yielded
the given payload (`log_message` with `n = payload.length`; an empty
payload is the `Ok(0)` case), a connection whose read errored, and
the `ctrl_c` signal (`ok = false` models `ctrl_c()` returning `Err`). -/
inductive Event where
  | message (ts : Nat) (client : String) (payload : List Nat)
  | readError
  | interrupt (ok : Bool)
  deriving Repr, DecidableEq

/-- `increment_bytes_counter`: under the counter lock, if the counter
already exceeds `max_size` print and `exit(1)`; otherwise add `n`. -/
def increment_bytes_counter (max_size : Nat) (s : ServerState) (n : Nat) : ServerState :=
  if max_size < s.counter then { s with exited := some 1 }
  else { s with counter := s.counter + n }

/-- `log_message` for a read that returned `payload` (possibly empty):
zero bytes read flushes and returns; otherwise the stamp and payload
are written and flushed under the file lock, then
`increment_bytes_counter` runs. -/
def log_message (max_size : Nat) (s : ServerState) (ts : Nat) (client : String)
    (payload : List Nat) : ServerState :=
  if payload.length = 0 then { s with flushes := s.flushes + 1 }
  else
    let s1 := { s with
      file := s.file ++ (stampBytes ts client payload.length ++ payload)
      flushes := s.flushes + 1 }
    increment_bytes_counter max_size s1 payload.length

/-- `graceful_shutdown`: flush, report
`(total, total - original_size)` from the counter, exit with `code`.
Returns the final state and the two reported sizes. -/
def graceful_shutdown (code : Nat) (s : ServerState) (original_size : Nat) :
    ServerState × Nat × Nat :=
  let s1 := { s with flushes := s.flushes + 1, exited := some code }
  (s1, s1.counter, s1.counter - original_size)

/-- One scheduler step.  A state that has already `exit`ed takes no
further steps. -/
def step (max_size : Nat) (s : ServerState) : Event → ServerState
  | .message ts client payload =>
      if s.exited.isSome then s else log_message max_size s ts client payload
  | .readError =>
      if s.exited.isSome then s else { s with flushes := s.flushes + 1 }
  | .interrupt ok =>
      if s.exited.isSome then s
      else (graceful_shutdown (if ok then 0 else 1) s s.original).1

/-- Run a list of events in order. -/
def run (max_size : Nat) (s : ServerState) : List Event → ServerState
  | [] => s
  | e :: es => run max_size (step max_size s e) es

/-- Server startup (`main`): the counter is seeded from the on-disk
file size; if that size already exceeds `max_log_size` the process
exits with code 1 before accepting any connection. -/
def startup (previous_bytes_written max_log_size : Nat) : ServerState :=
  if previous_bytes_written > max_log_size then
    { original := previous_bytes_written, counter := previous_bytes_written,
      file := [], flushes := 0, exited := some 1 }
  else
    { original := previous_bytes_written, counter := previous_bytes_written,
      file := [], flushes := 0, exited := none }

/-- Sum of the payload sizes of the message events of a trace. -/
def sumSizes : List Event → Nat
  | [] => 0
  | .message _ _ p :: es => p.length + sumSizes es
  | _ :: es => sumSizes es

/-! ## Basic lemmas about the step relation -/

/-- Once `exit` has run, no event has any effect. -/
lemma step_of_exited {max_size : Nat} {s : ServerState} (h : s.exited.isSome)
    (e : Event) : step max_size s e = s := by
  cases e <;> simp [step, h]

/-- Once `exit` has run, whole traces have no effect. -/
lemma run_of_exited {max_size : Nat} {s : ServerState} (h : s.exited.isSome)
    (evs : List Event) : run max_size s evs = s := by
  induction evs with
  | nil => rfl
  | cons e es ih => rw [run, step_of_exited h, ih]

/-- No step changes the recorded startup size. -/
lemma original_step (max_size : Nat) (s : ServerState) (e : Event) :
    (step max_size s e).original = s.original := by
  cases e <;> simp only [step, log_message, increment_bytes_counter, graceful_shutdown] <;>
    repeat' first | split | rfl

/-- One step never decreases the byte counter. -/
lemma counter_le_step (max_size : Nat) (s : ServerState) (e : Event) :
    s.counter ≤ (step max_size s e).counter := by
  cases e <;> simp only [step, log_message, increment_bytes_counter, graceful_shutdown] <;>
    (repeat' split) <;> simp

/-- A trace never decreases the byte counter. -/
lemma counter_le_run (max_size : Nat) (s : ServerState) (evs : List Event) :
    s.counter ≤ (run max_size s evs).counter := by
  induction evs generalizing s with
  | nil => exact Nat.le_refl _
  | cons e es ih => exact Nat.le_trans (counter_le_step max_size s e) (ih _)

/-- The counter of `startup` is the startup file size in both branches. -/
lemma startup_counter (sz max_size : Nat) : (startup sz max_size).counter = sz := by
  unfold startup; split <;> rfl

/-- Counter accounting: a trace that ends not-exited added exactly the
payload sizes of its message events to the counter. -/
lemma run_counter (max_size : Nat) (evs : List Event) :
    ∀ s : ServerState, (run max_size s evs).exited = none →
      (run max_size s evs).counter = s.counter + sumSizes evs := by
  induction evs with
  | nil => intro s _; simp [run, sumSizes]
  | cons e es ih =>
    intro s h
    have hs : s.exited = none := by
      rcases he : s.exited with _ | c
      · rfl
      · exfalso
        have hsome : s.exited.isSome := by rw [he]; rfl
        rw [run, step_of_exited hsome, run_of_exited hsome, he] at h
        exact Option.noConfusion h
    rw [run] at h ⊢
    cases e with
    | message ts client p =>
      by_cases hp : p.length = 0
      · have hstep : step max_size s (.message ts client p) = { s with flushes := s.flushes + 1 } := by
          simp [step, hs, log_message, hp]
        rw [hstep] at h ⊢
        rw [ih _ h]; simp [sumSizes, hp]
      · by_cases hov : max_size < s.counter
        · exfalso
          have hsome : (step max_size s (.message ts client p)).exited.isSome := by
            simp [step, hs, log_message, hp, increment_bytes_counter, hov]
          rw [run_of_exited hsome] at h
          simp [h] at hsome
        · rw [ih _ h]
          have hc : (step max_size s (.message ts client p)).counter = s.counter + p.length := by
            simp [step, hs, log_message, hp, increment_bytes_counter, hov]
          rw [hc]
          simp [sumSizes]; omega
    | readError =>
      have hstep : step max_size s .readError = { s with flushes := s.flushes + 1 } := by
        simp [step, hs]
      rw [hstep] at h ⊢
      rw [ih _ h]; simp [sumSizes]
    | interrupt ok =>
      exfalso
      have hsome : (step max_size s (.interrupt ok)).exited.isSome := by
        simp [step, hs, graceful_shutdown]
      rw [run_of_exited hsome] at h
      simp [h] at hsome

/-- Each step appends either nothing or one complete encoded record. -/
lemma step_file (max_size : Nat) (s : ServerState) (e : Event) :
    (step max_size s e).file = s.file ∨
      ∃ r : LogRecord, r.payload ≠ [] ∧
        (step max_size s e).file = s.file ++ encodeRecord r := by
  cases e with
  | message ts client p =>
    by_cases hx : s.exited.isSome
    · left; simp [step, hx]
    · by_cases hp : p.length = 0
      · left; simp [step, hx, log_message, hp]
      · right
        refine ⟨⟨ts, client, p⟩, ?_, ?_⟩
        · simpa using List.ne_nil_of_length_pos (Nat.pos_of_ne_zero hp)
        · simp only [step, hx, Bool.false_eq_true, if_false, log_message, hp, if_neg,
            increment_bytes_counter, encodeRecord]
          split <;> rfl
  | readError => left; by_cases hx : s.exited.isSome <;> simp [step, hx]
  | interrupt ok => left; by_cases hx : s.exited.isSome <;> simp [step, hx, graceful_shutdown]

/-- The bytes a run appends to the file form a concatenation of
complete encoded records with nonempty payloads. -/
lemma run_file_wf (max_size : Nat) (evs : List Event) :
    ∀ s : ServerState, ∃ recs : List LogRecord,
      (∀ r ∈ recs, r.payload ≠ []) ∧
      (run max_size s evs).file = s.file ++ (recs.map encodeRecord).flatten := by
  induction evs with
  | nil => intro s; exact ⟨[], by simp, by simp [run]⟩
  | cons e es ih =>
    intro s
    obtain ⟨recs, hne, hf⟩ := ih (step max_size s e)
    rcases step_file max_size s e with h | ⟨r, hr, h⟩
    · exact ⟨recs, hne, by rw [run, hf, h]⟩
    · refine ⟨r :: recs, ?_, ?_⟩
      · intro x hx
        rcases List.mem_cons.mp hx with rfl | hx
        · exact hr
        · exact hne x hx
      · rw [run, hf, h]
        simp [List.append_assoc]

/-! ## Claim theorems -/

/-- Claim C1, counterexample: with maxFileSizeBytes 100 and startup
size 0, after client A sends 60 bytes and client B sends 50 bytes the
process has NOT exited — `increment_bytes_counter` compares the
counter with the maximum before adding `n`, so B's handler sees 60,
accepts, and only then raises the counter to 110; the claimed
exit-with-code-1 immediately after B's write does not happen. -/
theorem overflow_deferred_cex :
    (run 100 (startup 0 100)
        [.message 0 "A" (List.replicate 60 97),
         .message 1 "B" (List.replicate 50 98)]).exited = none
  ∧ (run 100 (startup 0 100)
        [.message 0 "A" (List.replicate 60 97),
         .message 1 "B" (List.replicate 50 98)]).counter = 110 := by
  decide

set_option maxRecDepth 40000 in
/-- Claim C1, amended: in the same scenario ByteBudget does become 110
with both records A and B in the file, but the process keeps running;
the overflow is detected one message later: the next handled message
(client C) is still written to the file, its handler then observes
110 > 100 and the process exits with code 1, C's bytes never being
added to the counter; no write happens after that detection. -/
theorem overflow_deferred_scenario :
    (run 100 (startup 0 100)
        [.message 0 "A" (List.replicate 60 97),
         .message 1 "B" (List.replicate 50 98)]).exited = none
  ∧ (run 100 (startup 0 100)
        [.message 0 "A" (List.replicate 60 97),
         .message 1 "B" (List.replicate 50 98)]).file
      = encodeRecord ⟨0, "A", List.replicate 60 97⟩
          ++ encodeRecord ⟨1, "B", List.replicate 50 98⟩
  ∧ (run 100 (startup 0 100)
        [.message 0 "A" (List.replicate 60 97),
         .message 1 "B" (List.replicate 50 98),
         .message 2 "C" [99]]).exited = some 1
  ∧ (run 100 (startup 0 100)
        [.message 0 "A" (List.replicate 60 97),
         .message 1 "B" (List.replicate 50 98),
         .message 2 "C" [99]]).counter = 110
  ∧ (run 100 (startup 0 100)
        [.message 0 "A" (List.replicate 60 97),
         .message 1 "B" (List.replicate 50 98),
         .message 2 "C" [99]]).file
      = encodeRecord ⟨0, "A", List.replicate 60 97⟩
          ++ encodeRecord ⟨1, "B", List.replicate 50 98⟩
          ++ encodeRecord ⟨2, "C", [99]⟩ := by
  decide

/-- Claim C2: when a handler, inside `increment_bytes_counter`,
observes a counter value strictly above the maximum, the process
exits with code 1 and the whole remaining trace has no effect — in
particular no further record reaches the file. -/
theorem overflow_observed_exits (max_size : Nat) (s : ServerState) (ts : Nat)
    (client : String) (payload : List Nat) (hex : s.exited = none)
    (hov : max_size < s.counter) (hp : payload ≠ []) :
    (step max_size s (.message ts client payload)).exited = some 1
  ∧ ∀ evs, run max_size (step max_size s (.message ts client payload)) evs
      = step max_size s (.message ts client payload) := by
  have hp' : payload.length ≠ 0 := fun h => hp (List.length_eq_zero.mp h)
  have h1 : (step max_size s (.message ts client payload)).exited = some 1 := by
    simp [step, hex, log_message, hp', increment_bytes_counter, hov]
  exact ⟨h1, fun evs => run_of_exited (by rw [h1]; rfl) evs⟩

/-- Witness for C2 at a concrete over-budget state. -/
theorem overflow_observed_exits_witness :
    ({ original := 0, counter := 110, file := [], flushes := 0,
       exited := none } : ServerState).exited = none
  ∧ (100 : Nat) < 110
  ∧ ([99] : List Nat) ≠ []
  ∧ (step 100 ({ original := 0, counter := 110, file := [], flushes := 0, exited := none } : ServerState) (.message 2 "C" [99])).exited = some 1 := by
  refine ⟨rfl, by norm_num, by decide, ?_⟩
  exact (overflow_observed_exits 100
    { original := 0, counter := 110, file := [], flushes := 0, exited := none }
    2 "C" [99] rfl (by norm_num) (by decide)).1

/-- Claim C3: the counter is seeded with the startup file size, and a
trace that never triggers an exit leaves it at that size plus the sum
of the payload lengths of its messages — stamp bytes are never
counted. -/
theorem budget_accounting (sz max_size : Nat) (evs : List Event)
    (h : (run max_size (startup sz max_size) evs).exited = none) :
    (startup sz max_size).counter = sz
  ∧ (run max_size (startup sz max_size) evs).counter = sz + sumSizes evs := by
  refine ⟨startup_counter sz max_size, ?_⟩
  rw [run_counter max_size evs _ h, startup_counter]

/-- Witness for C3 on a concrete three-event trace. -/
theorem budget_accounting_witness :
    (run 1000 (startup 10 1000)
        [.message 0 "A" [1, 2, 3], .readError, .message 5 "B" [4, 5]]).exited = none
  ∧ (startup 10 1000).counter = 10
  ∧ (run 1000 (startup 10 1000)
        [.message 0 "A" [1, 2, 3], .readError, .message 5 "B" [4, 5]]).counter
      = 10 + sumSizes [.message 0 "A" [1, 2, 3], .readError, .message 5 "B" [4, 5]] := by
  refine ⟨by decide, ?_, ?_⟩
  · exact (budget_accounting 10 1000
      [.message 0 "A" [1, 2, 3], .readError, .message 5 "B" [4, 5]] (by decide)).1
  · exact (budget_accounting 10 1000
      [.message 0 "A" [1, 2, 3], .readError, .message 5 "B" [4, 5]] (by decide)).2

/-- Claim C4: a handled read of `n > 0` bytes appends, in one step
under the file lock, exactly the stamp line followed by the `n`
payload bytes; the stamp line has the documented
`\n$$$ts$$$client$$$n$$$\n` shape; and every reachable file is a
concatenation of complete encoded records — no interleaving or
truncation. -/
theorem record_format_atomic (max_size : Nat) (s : ServerState) (ts : Nat)
    (client : String) (payload : List Nat) (hex : s.exited = none)
    (hp : payload ≠ []) :
    (step max_size s (.message ts client payload)).file
      = s.file ++ (stampBytes ts client payload.length ++ payload)
  ∧ stampString ts client payload.length
      = "\n$$$" ++ toString ts ++ "$$$" ++ client ++ "$$$"
          ++ toString payload.length ++ "$$$\n"
  ∧ ∀ sz evs, ∃ recs : List LogRecord, (∀ r ∈ recs, r.payload ≠ []) ∧
      (run max_size (startup sz max_size) evs).file
        = (recs.map encodeRecord).flatten := by
  have hp' : payload.length ≠ 0 := fun h => hp (List.length_eq_zero.mp h)
  refine ⟨?_, rfl, ?_⟩
  · have h1 : step max_size s (.message ts client payload)
        = increment_bytes_counter max_size
            { s with file := s.file ++ (stampBytes ts client payload.length ++ payload),
                     flushes := s.flushes + 1 } payload.length := by
      simp [step, hex, log_message, hp']
    rw [h1, increment_bytes_counter]
    split <;> rfl
  · intro sz evs
    obtain ⟨recs, hne, hf⟩ := run_file_wf max_size evs (startup sz max_size)
    refine ⟨recs, hne, ?_⟩
    rw [hf]
    have hemp : (startup sz max_size).file = [] := by unfold startup; split <;> rfl
    rw [hemp]
    rfl

/-- Witness for C4 on a concrete one-byte message. -/
theorem record_format_atomic_witness :
    (startup 0 100).exited = none
  ∧ ([65] : List Nat) ≠ []
  ∧ (step 100 (startup 0 100) (.message 7 "1.2.3.4:5" [65])).file
      = (startup 0 100).file ++ (stampBytes 7 "1.2.3.4:5" 1 ++ [65]) := by
  refine ⟨by decide, by decide, ?_⟩
  exact (record_format_atomic 100 (startup 0 100) 7 "1.2.3.4:5" [65]
    (by decide) (by decide)).1

/-- Claim C5: at every point of every execution the counter is at
least the startup file size, so the session-bytes subtraction in the
shutdown summary never underflows. -/
theorem budget_ge_startup (sz max_size : Nat) (evs : List Event) :
    sz ≤ (run max_size (startup sz max_size) evs).counter
  ∧ (run max_size (startup sz max_size) evs).counter - sz + sz
      = (run max_size (startup sz max_size) evs).counter := by
  have h : sz ≤ (run max_size (startup sz max_size) evs).counter := by
    have hc := counter_le_run max_size (startup sz max_size) evs
    rwa [startup_counter] at hc
  exact ⟨h, Nat.sub_add_cancel h⟩

/-- Claim C6: a startup file size strictly above the maximum makes
the process exit with code 1 before any connection is handled, with
zero bytes written. -/
theorem startup_over_budget_aborts (sz max_size : Nat) (h : max_size < sz) :
    (startup sz max_size).exited = some 1
  ∧ (startup sz max_size).file = []
  ∧ ∀ evs, run max_size (startup sz max_size) evs = startup sz max_size := by
  have h1 : (startup sz max_size).exited = some 1 := by
    unfold startup; rw [if_pos h]
  refine ⟨h1, ?_, fun evs => run_of_exited (by rw [h1]; rfl) evs⟩
  unfold startup; split <;> rfl

/-- Witness for C6 at startup size 150 against maximum 100. -/
theorem startup_over_budget_aborts_witness :
    (100 : Nat) < 150
  ∧ (startup 150 100).exited = some 1
  ∧ (startup 150 100).file = [] := by
  refine ⟨by norm_num, ?_, ?_⟩
  · exact (startup_over_budget_aborts 150 100 (by norm_num)).1
  · exact (startup_over_budget_aborts 150 100 (by norm_num)).2.1

/-- Claim C7: a read that yields zero bytes or errors only flushes:
no record is written, the counter is untouched, the process does not
exit and keeps serving. -/
theorem empty_read_nonfatal (max_size : Nat) (s : ServerState) (ts : Nat)
    (client : String) (hex : s.exited = none) :
    step max_size s .readError = { s with flushes := s.flushes + 1 }
  ∧ step max_size s (.message ts client []) = { s with flushes := s.flushes + 1 }
  ∧ (step max_size s .readError).exited = none
  ∧ (step max_size s .readError).file = s.file
  ∧ (step max_size s .readError).counter = s.counter := by
  have h1 : step max_size s .readError = { s with flushes := s.flushes + 1 } := by
    simp [step, hex]
  have h2 : step max_size s (.message ts client []) = { s with flushes := s.flushes + 1 } := by
    simp [step, hex, log_message]
  exact ⟨h1, h2, by rw [h1]; exact hex, by rw [h1], by rw [h1]⟩

/-- Witness for C7 from a freshly started state. -/
theorem empty_read_nonfatal_witness :
    (startup 3 100).exited = none
  ∧ step 100 (startup 3 100) .readError
      = { startup 3 100 with flushes := (startup 3 100).flushes + 1 } := by
  refine ⟨by decide, ?_⟩
  exact (empty_read_nonfatal 100 (startup 3 100) 0 "A" (by decide)).1

/-- Claim C8: the interrupt runs `graceful_shutdown`: one more flush,
the report is the current counter and the counter minus the startup
size, and the exit code is 0 for a cleanly received signal and 1 for
a signal failure. -/
theorem interrupt_shutdown_report (max_size : Nat) (s : ServerState) (ok : Bool)
    (hex : s.exited = none) :
    step max_size s (.interrupt ok)
      = (graceful_shutdown (if ok then 0 else 1) s s.original).1
  ∧ (step max_size s (.interrupt ok)).exited = some (if ok then 0 else 1)
  ∧ (step max_size s (.interrupt ok)).flushes = s.flushes + 1
  ∧ (graceful_shutdown (if ok then 0 else 1) s s.original).2.1 = s.counter
  ∧ (graceful_shutdown (if ok then 0 else 1) s s.original).2.2
      = s.counter - s.original := by
  have h1 : step max_size s (.interrupt ok)
      = (graceful_shutdown (if ok then 0 else 1) s s.original).1 := by
    simp [step, hex]
  exact ⟨h1, by rw [h1]; rfl, by rw [h1]; rfl, rfl, rfl⟩

/-- Witness for C8 on a clean interrupt of a fresh state. -/
theorem interrupt_shutdown_report_witness :
    (startup 5 100).exited = none
  ∧ (step 100 (startup 5 100) (.interrupt true)).exited = some 0 := by
  refine ⟨by decide, ?_⟩
  exact (interrupt_shutdown_report 100 (startup 5 100) true (by decide)).2.1

/-! ## Lemmas about `human_readable_size` -/

/-- Rounding half-to-even never falls below the floor quotient. -/
lemma rndHalfEven_ge (a b : Nat) : a / b ≤ rndHalfEven a b := by
  simp only [rndHalfEven]
  repeat' split
  all_goals omega

/-- Rounding half-to-even never exceeds the floor quotient plus one. -/
lemma rndHalfEven_le (a b : Nat) : rndHalfEven a b ≤ a / b + 1 := by
  simp only [rndHalfEven]
  repeat' split
  all_goals omega

/-- The division loop never returns an index below its start. -/
lemma hrs_unit_ge_start (m i : Nat) : i ≤ hrs_unit m i := by
  refine hrs_unit.induct m (fun j => j ≤ hrs_unit m j) ?_ ?_ i
  · intro x h ih
    rw [hrs_unit, if_pos h]
    exact Nat.le_trans (Nat.le_succ x) ih
  · intro x h
    rw [hrs_unit, if_neg h]

/-- A value below `1024^(i+d+1)` makes the loop stop within `d` more
iterations. -/
lemma hrs_unit_le_aux (d : Nat) :
    ∀ i m, m < 2 ^ (10 * (i + d + 1)) → hrs_unit m i ≤ i + d := by
  induction d with
  | zero =>
    intro i m h
    rw [hrs_unit, if_neg (by simpa using h)]
    omega
  | succ d ih =>
    intro i m h
    rw [hrs_unit]
    split
    · have heq : 10 * (i + 1 + d + 1) = 10 * (i + (d + 1) + 1) := by ring
      have := ih (i + 1) m (by rw [heq]; exact h)
      omega
    · omega

/-- The loop result is the base-1024 magnitude of its input: the final
unit `u` satisfies `1024^u ≤ m < 1024^(u+1)`. -/
lemma hrs_unit_spec (m i : Nat) :
    2 ^ (10 * i) ≤ m →
      2 ^ (10 * hrs_unit m i) ≤ m ∧ m < 2 ^ (10 * (hrs_unit m i + 1)) := by
  refine hrs_unit.induct m
    (fun j => 2 ^ (10 * j) ≤ m →
      2 ^ (10 * hrs_unit m j) ≤ m ∧ m < 2 ^ (10 * (hrs_unit m j + 1))) ?_ ?_ i
  · intro x h ih _
    rw [hrs_unit, if_pos h]
    have hx : 2 ^ (10 * (x + 1)) ≤ m := h
    have := ih hx
    rwa [hrs_unit] at this ⊢
  · intro x h h0
    rw [hrs_unit, if_neg h]
    exact ⟨h0, by omega⟩

/-- Conversion to `f64` is the identity below `2^53`. -/
lemma rnd53_small (n : Nat) (h : n < 2 ^ 53) : rnd53 n = n := by
  rw [rnd53, if_pos h]

/-- Conversion to `f64` of a value up to `2^60` overshoots by at most
one rounding granule of `2^8`. -/
lemma rnd53_le (n : Nat) (h : n ≤ 2 ^ 60) : rnd53 n ≤ 2 ^ 60 + 2 ^ 8 := by
  simp only [rnd53]
  split
  · omega
  · rename_i hn
    set e := Nat.log2 n + 1 - 53 with he
    have hlog : Nat.log2 n < 61 := by
      rw [Nat.log2_lt (by omega : n ≠ 0)]
      calc n ≤ 2 ^ 60 := h
      _ < 2 ^ 61 := by norm_num
    have he8 : e ≤ 8 := by omega
    have hee : (2:Nat) ^ e ≤ 2 ^ 8 := Nat.pow_le_pow_right (by norm_num) he8
    calc rndHalfEven n (2 ^ e) * 2 ^ e
        ≤ (n / 2 ^ e + 1) * 2 ^ e := Nat.mul_le_mul_right _ (rndHalfEven_le n _)
    _ = n / 2 ^ e * 2 ^ e + 2 ^ e := by ring
    _ ≤ n + 2 ^ e := by have := Nat.div_mul_le_self n (2 ^ e); omega
    _ ≤ 2 ^ 60 + 2 ^ 8 := by omega

/-- Conversion to `f64` keeps a value that is at least `1024` at or
above `1024`. -/
lemma rnd53_ge (n : Nat) (h1 : 1024 ≤ n) : 1024 ≤ rnd53 n := by
  simp only [rnd53]
  split
  · exact h1
  · rename_i hn
    set e := Nat.log2 n + 1 - 53 with he
    have hn' : 2 ^ 53 ≤ n := by omega
    have hlog : 53 ≤ Nat.log2 n := by
      rw [Nat.le_log2 (by omega)]
      exact hn'
    have hpow : 2 ^ 52 * 2 ^ e ≤ n := by
      rw [← pow_add]
      have h52 : 52 + e = Nat.log2 n := by omega
      rw [h52]
      exact Nat.log2_self_le (by omega)
    have hq : 2 ^ 52 ≤ n / 2 ^ e :=
      (Nat.le_div_iff_mul_le (pow_pos two_pos e)).mpr hpow
    calc (1024:Nat) ≤ 2 ^ 52 := by norm_num
    _ ≤ n / 2 ^ e := hq
    _ ≤ rndHalfEven n (2 ^ e) := rndHalfEven_ge n _
    _ ≤ rndHalfEven n (2 ^ e) * 2 ^ e :=
        Nat.le_mul_of_pos_right _ (pow_pos two_pos e)

/-- Sizes below 1024 print as a plain count with the `B` suffix. -/
lemma hrs_small (n : Nat) (h : n < 1024) :
    human_readable_size n = some (toString n ++ " B") := by
  have h53 : n < 2 ^ 53 := lt_trans h (by norm_num)
  have hr : rnd53 n = n := rnd53_small n h53
  have hu : hrs_unit n 0 = 0 := by
    rw [hrs_unit, if_neg (by norm_num; omega)]
  have hmax : ¬ n > 1024 ^ (SCALE_BYTES.length - 1) := by
    simp only [SCALE_BYTES, List.length_cons, List.length_nil]
    have hp : (1024:Nat) ≤ 1024 ^ (6 + 1 - 1) := Nat.le_self_pow (by norm_num) _
    omega
  simp only [human_readable_size]
  rw [if_neg hmax, hr, hu]
  simp [SCALE_BYTES, fmt0, rndHalfEven, Nat.mod_one]
  rw [String.append_assoc]
  congr 1

/-- Sizes above `1024^6` take the early raw-count branch. -/
lemma hrs_big (n : Nat) (h : 1024 ^ 6 < n) :
    human_readable_size n = some (toString n ++ " B") := by
  simp only [human_readable_size]
  rw [if_pos (by simpa [SCALE_BYTES] using h)]

/-- Claim C9, counterexample: `1024^6 + 1 = 1152921504606846977` is a
size larger than 1024, yet `human_readable_size` renders it as a
plain byte count with no decimal places and no scaling — the early
branch for sizes above `1024^6` contradicts the claim that all sizes
of 1024 and above get a two-decimal scaled rendering. -/
theorem hrs_two_decimals_cex :
    (1024:Nat) < 1152921504606846977
  ∧ human_readable_size 1152921504606846977 = some "1152921504606846977 B"
  ∧ ('.' ∈ "1152921504606846977 B".data) = False := by
  refine ⟨by norm_num, ?_, by simp⟩
  have h := hrs_big 1152921504606846977 (by norm_num)
  rw [h]
  rfl

/-- Claim C9, amended: sizes under 1024 are rendered as a plain byte
count with no decimal places; sizes from 1024 up to `1024^6` are
scaled, after the exact `usize`-to-`f64` conversion `rnd53`, by the
largest power of 1024 not exceeding the converted value, and rendered
with two decimal places and that power's unit suffix; sizes strictly
above `1024^6` are rendered as a plain byte count with a `B`
suffix. -/
theorem hrs_format_amended (n : Nat) :
    (n < 1024 → human_readable_size n = some (toString n ++ " B"))
  ∧ (1024 ≤ n → n ≤ 1024 ^ 6 →
      ∃ u, 1 ≤ u ∧ u ≤ 6
        ∧ 2 ^ (10 * u) ≤ rnd53 n ∧ rnd53 n < 2 ^ (10 * (u + 1))
        ∧ human_readable_size n
            = some (fmt2 (rnd53 n) u ++ " " ++ SCALE_BYTES.getD u ""))
  ∧ (1024 ^ 6 < n → human_readable_size n = some (toString n ++ " B")) := by
  refine ⟨hrs_small n, ?_, hrs_big n⟩
  intro h1 h6
  have h60 : n ≤ 2 ^ 60 := by norm_num at h6 ⊢; omega
  have hle := rnd53_le n h60
  have hge := rnd53_ge n h1
  have hu6 : hrs_unit (rnd53 n) 0 ≤ 6 := by
    have h70 : rnd53 n < 2 ^ (10 * (0 + 6 + 1)) := by norm_num at hle ⊢; omega
    simpa using hrs_unit_le_aux 6 0 (rnd53 n) h70
  have hu1 : 1 ≤ hrs_unit (rnd53 n) 0 := by
    rw [hrs_unit, if_pos (by norm_num; omega)]
    exact hrs_unit_ge_start (rnd53 n) 1
  have hspec := hrs_unit_spec (rnd53 n) 0 (by norm_num; omega)
  refine ⟨hrs_unit (rnd53 n) 0, hu1, hu6, hspec.1, hspec.2, ?_⟩
  have hmax : ¬ n > 1024 ^ (SCALE_BYTES.length - 1) := by
    simpa [SCALE_BYTES] using h6
  simp only [human_readable_size]
  rw [if_neg hmax]
  obtain ⟨u, hu⟩ : ∃ u, hrs_unit (rnd53 n) 0 = u := ⟨_, rfl⟩
  rw [hu] at hu1 hu6 ⊢
  interval_cases u <;> simp [SCALE_BYTES]

/-- Witness for C9 at 500 (plain), 1536 (scaled) and `1024^6 + 1`
(early raw-count branch). -/
theorem hrs_format_amended_witness :
    ((500:Nat) < 1024 ∧ human_readable_size 500 = some (toString 500 ++ " B"))
  ∧ ((1024:Nat) ≤ 1536 ∧ (1536:Nat) ≤ 1024 ^ 6
      ∧ ∃ u, 1 ≤ u ∧ u ≤ 6
          ∧ 2 ^ (10 * u) ≤ rnd53 1536 ∧ rnd53 1536 < 2 ^ (10 * (u + 1))
          ∧ human_readable_size 1536
              = some (fmt2 (rnd53 1536) u ++ " " ++ SCALE_BYTES.getD u ""))
  ∧ ((1024:Nat) ^ 6 < 1024 ^ 6 + 1
      ∧ human_readable_size (1024 ^ 6 + 1) = some (toString (1024 ^ 6 + 1) ++ " B")) := by
  refine ⟨⟨by norm_num, (hrs_format_amended 500).1 (by norm_num)⟩,
    ⟨by norm_num, by norm_num, (hrs_format_amended 1536).2.1 (by norm_num) (by norm_num)⟩,
    ⟨by norm_num, (hrs_format_amended (1024 ^ 6 + 1)).2.2 (by norm_num)⟩⟩

/-- Claim C10: `human_readable_size` is total — it never hits the
panicking out-of-bounds index.  Inputs above `1024^6` take the early
raw-count branch; for every other input the loop index stays below
the seven-entry table length. -/
theorem hrs_total_safe (n : Nat) :
    (human_readable_size n).isSome = true
  ∧ (1024 ^ 6 < n → human_readable_size n = some (toString n ++ " B"))
  ∧ (n ≤ 1024 ^ 6 → hrs_unit (rnd53 n) 0 < SCALE_BYTES.length) := by
  by_cases h : 1024 ^ 6 < n
  · refine ⟨?_, fun _ => hrs_big n h, fun hc => absurd hc (by omega)⟩
    rw [hrs_big n h]
    rfl
  · have h6 : n ≤ 1024 ^ 6 := by omega
    have h60 : n ≤ 2 ^ 60 := by norm_num at h6 ⊢; omega
    have hle := rnd53_le n h60
    have hu6 : hrs_unit (rnd53 n) 0 ≤ 6 := by
      have h70 : rnd53 n < 2 ^ (10 * (0 + 6 + 1)) := by norm_num at hle ⊢; omega
      simpa using hrs_unit_le_aux 6 0 (rnd53 n) h70
    have hlen : hrs_unit (rnd53 n) 0 < SCALE_BYTES.length := by
      simp only [SCALE_BYTES, List.length_cons, List.length_nil]
      omega
    refine ⟨?_, fun hc => absurd hc h, fun _ => hlen⟩
    have hmax : ¬ n > 1024 ^ (SCALE_BYTES.length - 1) := by
      simpa [SCALE_BYTES] using h6
    simp only [human_readable_size]
    rw [if_neg hmax]
    have hsome : SCALE_BYTES.get? (hrs_unit (rnd53 n) 0) ≠ none := by
      intro hc
      rw [List.get?_eq_none] at hc
      omega
    obtain ⟨v, hv⟩ := Option.ne_none_iff_exists'.mp hsome
    rw [hv]
    rfl

/-- Witness for C10 at 7 (loop branch) and `2^61` (early branch). -/
theorem hrs_total_safe_witness :
    (human_readable_size 7).isSome = true
  ∧ ((7:Nat) ≤ 1024 ^ 6 ∧ hrs_unit (rnd53 7) 0 < SCALE_BYTES.length)
  ∧ ((1024:Nat) ^ 6 < 2 ^ 61
      ∧ human_readable_size (2 ^ 61) = some (toString (2 ^ 61) ++ " B")) := by
  refine ⟨(hrs_total_safe 7).1, ⟨by norm_num, (hrs_total_safe 7).2.2 (by norm_num)⟩,
    ⟨by norm_num, (hrs_total_safe (2 ^ 61)).2.1 (by norm_num)⟩⟩
